import Mathlib

/-!
Shallow embedding of the core logic of `src/global.js` (a D3 choropleth of
per-country annual temperatures with a per-country drill-down chart).

Embedded here: the CSV ingestion into the year → country index
(`loadData`, lines 59-93), the two color scales (`colorScaleAbsolute`,
`colorScaleChange`), the `localStorage.year` hydration (lines 41-47), and
the 1-D Kalman smoothing filter (`kalmanFilter`, lines 319-344).

Modelling conventions: JS numbers are `ℚ` (the analytic statements about
the filter's error state are phrased over `ℝ` via the cast); a JS
`null`/absent/non-numeric field value is `Option.none`; the `NaN` year key
that `+d.year` produces for an unparseable year is modelled as the `none`
key of the index; `d3.max`/`d3.min` return `none` on an empty list exactly
as the JS functions return `undefined`.  The external d3 color
interpolators (`d3.interpolateRdYlBu`, `d3.interpolateRdBu`) are kept
abstract as function parameters `ℚ → Color`: parameter `0` is their red
end, `1` their blue end, `1/2` the neutral midpoint.
-/

/-- An input point of `kalmanFilter`: one element of `countryData` built in
`showCountryModal` (a year and an absolute temperature). -/
structure Pt where
  year : ℤ
  temperature : ℚ
deriving DecidableEq, Repr

/-- An output point of `kalmanFilter`: the smoothed estimate together with
the raw original temperature (`smoothedData.push` at lines 336-340). -/
structure OutPt where
  year : ℤ
  temperature : ℚ
  originalTemperature : ℚ
deriving DecidableEq, Repr

/-- The `data.forEach` loop of `kalmanFilter` (lines 326-341): consumes the
remaining points given the current `estimate` and `errorEstimate`, and
returns the emitted output list together with the final
`(estimate, errorEstimate)` state. -/
def kalmanAux (processNoise measurementNoise : ℚ) :
    ℚ → ℚ → List Pt → List OutPt × ℚ × ℚ
  | estimate, errorEstimate, [] => ([], estimate, errorEstimate)
  | estimate, errorEstimate, point :: rest =>
      let predictedEstimate := estimate
      let predictedError := errorEstimate + processNoise
      let kalmanGain := predictedError / (predictedError + measurementNoise)
      let newEstimate :=
        predictedEstimate + kalmanGain * (point.temperature - predictedEstimate)
      let newError := (1 - kalmanGain) * predictedError
      let out := kalmanAux processNoise measurementNoise newEstimate newError rest
      (⟨point.year, newEstimate, point.temperature⟩ :: out.1, out.2)

/-- `kalmanFilter(data, processNoise, measurementNoise)` (lines 319-344).
The JS defaults are `processNoise = 0.01`, `measurementNoise = 0.6`; the
drill-down chart calls it with `0.1, 0.5`.  Empty input is returned
unchanged; otherwise `estimate` starts at `data[0].temperature` and
`errorEstimate` at `1.0`. -/
def kalmanFilter (data : List Pt) (processNoise measurementNoise : ℚ) :
    List OutPt :=
  match data with
  | [] => []
  | p :: rest =>
      (kalmanAux processNoise measurementNoise p.temperature 1 (p :: rest)).1

/-- One step of the `errorEstimate` recurrence of `kalmanFilter`
(lines 329-334): `predictedError = errorEstimate + processNoise`,
`gain = predictedError / (predictedError + measurementNoise)`,
new error `= (1 - gain) * predictedError`. -/
def errUpdate (processNoise measurementNoise errorEstimate : ℚ) : ℚ :=
  let predictedError := errorEstimate + processNoise
  let kalmanGain := predictedError / (predictedError + measurementNoise)
  (1 - kalmanGain) * predictedError

/-- The `errorEstimate` state after `n` iterations of the filter loop,
starting from the initial value `1.0` (line 324). -/
def errAfter (processNoise measurementNoise : ℚ) : ℕ → ℚ
  | 0 => 1
  | n + 1 => errUpdate processNoise measurementNoise
      (errAfter processNoise measurementNoise n)

/-- The final `errorEstimate` state of a `kalmanFilter` run (`1.0` when the
input is empty and the loop never executes). -/
def kalmanErrState (data : List Pt) (processNoise measurementNoise : ℚ) : ℚ :=
  match data with
  | [] => 1
  | p :: rest =>
      (kalmanAux processNoise measurementNoise p.temperature 1 (p :: rest)).2.2

/-- The error-update step transported to `ℝ`, for the convergence
analysis. -/
noncomputable def errUpdateR (processNoise measurementNoise e : ℝ) : ℝ :=
  let predictedError := e + processNoise
  let kalmanGain := predictedError / (predictedError + measurementNoise)
  (1 - kalmanGain) * predictedError

/-- One raw CSV row after JS coercion of its fields (`csv.forEach` at
lines 59-73).  `year = none` models a year field that is not parseable as a
number, for which `+d.year` yields `NaN` (and hence the string key `"NaN"`
in the `csvData` object); `avg_temp_absolute`/`avg_temp_change` are `none`
when the field is absent, empty, or non-numeric (the JS code maps those to
`null` via truthiness, or to a `NaN` that every later consumer filters
out with `isNaN`). -/
structure Row where
  year : Option ℤ
  iso_num : String
  country : String
  avg_temp_absolute : Option ℚ
  avg_temp_change : Option ℚ
deriving DecidableEq, Repr

/-- The per-(year, country) record stored in `csvData[year][isoCode]`
(lines 67-72).  As in the source, `change` and `percentChange` are both
copies of `avg_temp_change`. -/
structure Record where
  country : String
  value : Option ℚ
  change : Option ℚ
  percentChange : Option ℚ
deriving DecidableEq, Repr

/-- The object literal assigned at lines 67-72. -/
def mkRecord (d : Row) : Record :=
  ⟨d.country, d.avg_temp_absolute, d.avg_temp_change, d.avg_temp_change⟩

/-- Key lookup in a JS object modelled as an insertion-ordered association
list. -/
def getKey {α β : Type} [DecidableEq α] : List (α × β) → α → Option β
  | [], _ => none
  | (k, v) :: rest, k0 => if k = k0 then some v else getKey rest k0

/-- Key assignment in a JS object modelled as an insertion-ordered
association list: an existing key is updated in place, a new key is
appended. -/
def setKey {α β : Type} [DecidableEq α] : List (α × β) → α → β → List (α × β)
  | [], k0, v0 => [(k0, v0)]
  | (k, v) :: rest, k0, v0 =>
      if k = k0 then (k0, v0) :: rest else (k, v) :: setKey rest k0 v0

/-- The inner `csvData[year]` object: isoCode → record. -/
abbrev YearMap := List (String × Record)

/-- The `csvData` object: year key → `YearMap` (`none` is the `"NaN"`
key). -/
abbrev Index := List (Option ℤ × YearMap)

/-- One iteration of the `csv.forEach` ingestion loop (lines 59-73):
create `csvData[year]` if missing, then assign
`csvData[year][isoCode] = mkRecord d`. -/
def ingest (csvData : Index) (d : Row) : Index :=
  let inner := (getKey csvData d.year).getD []
  setKey csvData d.year (setKey inner d.iso_num (mkRecord d))

/-- The whole ingestion loop over the raw rows, starting from the empty
`csvData` object. -/
def buildIndex (csv : List Row) : Index := csv.foldl ingest []

/-- `csvData[year]?.[isoCode]`: lookup in the built index; `none` when
either key is absent. -/
def lookupIdx (csvData : Index) (year : Option ℤ) (isoCode : String) :
    Option Record :=
  (getKey csvData year).bind fun inner => getKey inner isoCode

/-- The `allPercentChanges` collection (lines 82-90): walk the built
`csvData` object and push `Math.abs(percentChange)` for every record whose
`percentChange` is non-null (and non-`NaN`, which the `Option` model folds
into `none`). -/
def allPercentChanges (csvData : Index) : List ℚ :=
  (csvData.map fun ym => ym.2.filterMap fun ci =>
    Option.map (fun c => |c|) ci.2.percentChange).flatten

/-- `d3.max`: `undefined` (here `none`) on an empty list, else the
maximum. -/
def d3Max (l : List ℚ) : Option ℚ := l.max?

/-- `d3.min`: `undefined` (here `none`) on an empty list, else the
minimum. -/
def d3Min (l : List ℚ) : Option ℚ := l.min?

/-- `maxPercentChange` (line 91): `d3.max` over the collected absolute
changes of the built index. -/
def maxPercentChange (csv : List Row) : Option ℚ :=
  d3Max (allPercentChanges (buildIndex csv))

/-- The domain `[-maxPercentChange, 0, maxPercentChange]` handed to
`d3.scaleDiverging` (line 93).  When `maxPercentChange` is `undefined`
(no relative data at all) the JS domain degenerates to `[NaN, 0, NaN]`;
that degenerate case is modelled as `none`: no well-formed domain
exists. -/
def changeDomain (csv : List Row) : Option (ℚ × ℚ × ℚ) :=
  Option.map (fun m => (-m, 0, m)) (maxPercentChange csv)

/-- d3's `normalize(a, b)` as used by `d3.scaleSequential`: the linear map
sending `[a, b]` to `[0, 1]`, constant `1/2` when the domain is
degenerate. -/
def seqNormalize (a b x : ℚ) : ℚ :=
  if b - a = 0 then 1 / 2 else (x - a) / (b - a)

/-- `d3.scaleSequential(interpolator).domain([a, b])` applied to `x`:
normalize into `[0, 1]`, then interpolate.  `Color` stays abstract. -/
def scaleSequential {Color : Type} (interpolator : ℚ → Color)
    (a b x : ℚ) : Color :=
  interpolator (seqNormalize a b x)

/-- `const interpolateBlYlRd = t => d3.interpolateRdYlBu(1 - t)` (line 79):
the red-yellow-blue perceptual ramp (red at `0`, blue at `1`) reversed. -/
def interpolateBlYlRd {Color : Type} (interpolateRdYlBu : ℚ → Color)
    (t : ℚ) : Color :=
  interpolateRdYlBu (1 - t)

/-- `colorScaleAbsolute = d3.scaleSequential(interpolateBlYlRd)
.domain([minValue, maxValue])` (line 80), applied to `x`. -/
def colorScaleAbsolute {Color : Type} (interpolateRdYlBu : ℚ → Color)
    (minValue maxValue x : ℚ) : Color :=
  scaleSequential (interpolateBlYlRd interpolateRdYlBu) minValue maxValue x

/-- d3's diverging-scale position function for domain `[d0, d1, d2]`:
`t = 0.5 + (x - d1) * k * 0.5` with `k = 1/(d1 - d0)` below the center and
`k = 1/(d2 - d1)` above it. -/
def divergingT (d0 d1 d2 x : ℚ) : ℚ :=
  1 / 2 + (x - d1) * (if x < d1 then 1 / (d1 - d0) else 1 / (d2 - d1)) * (1 / 2)

/-- `d3.scaleDiverging(interpolator).domain([d0, d1, d2])` applied to
`x`. -/
def scaleDiverging {Color : Type} (interpolator : ℚ → Color)
    (d0 d1 d2 x : ℚ) : Color :=
  interpolator (divergingT d0 d1 d2 x)

/-- `const interpolateBlRd = t => d3.interpolateRdBu(1 - t)` (line 92): the
red-blue diverging ramp (red at `0`, neutral at `1/2`, blue at `1`)
reversed. -/
def interpolateBlRd {Color : Type} (interpolateRdBu : ℚ → Color)
    (t : ℚ) : Color :=
  interpolateRdBu (1 - t)

/-- `colorScaleChange = d3.scaleDiverging(interpolateBlRd)
.domain([-maxPercentChange, 0, maxPercentChange])` (line 93), applied to
`x`. -/
def colorScaleChange {Color : Type} (interpolateRdBu : ℚ → Color)
    (maxPC x : ℚ) : Color :=
  scaleDiverging (interpolateBlRd interpolateRdBu) (-maxPC) 0 maxPC x

/-- The `localStorage.year` hydration (lines 41-47).  Input: the persisted
year, `none` when the key is absent or empty (falsy).  Output: the
resulting `currentYear` and the persisted value after hydration (the code
rewrites storage only when it clamps; an in-range value is left in place).
`currentYear` starts at `2014` (line 35). -/
def hydrateYear (stored : Option ℤ) : ℤ × Option ℤ :=
  match stored with
  | none => (2014, none)
  | some y => if y < 1850 ∨ 2014 < y then (2014, some 2014) else (y, some y)

lemma kalmanAux_proj (pn mn : ℚ) (l : List Pt) : ∀ est err : ℚ,
    ((kalmanAux pn mn est err l).1).map (fun q => (q.year, q.originalTemperature))
      = l.map fun p => (p.year, p.temperature) := by
  induction l with
  | nil => intro est err; rfl
  | cons p rest ih => intro est err; simp [kalmanAux, ih]

lemma kalmanFilter_proj (data : List Pt) (pn mn : ℚ) :
    (kalmanFilter data pn mn).map (fun q => (q.year, q.originalTemperature))
      = data.map fun p => (p.year, p.temperature) := by
  cases data with
  | nil => rfl
  | cons p rest => exact kalmanAux_proj pn mn (p :: rest) p.temperature 1

/-- C8: for every input sequence the output of `kalmanFilter` has the same
length as the input, and the empty input yields the empty output. -/
theorem kalmanFilter_length (data : List Pt) (pn mn : ℚ) :
    (kalmanFilter data pn mn).length = data.length ∧
    kalmanFilter [] pn mn = [] := by
  refine ⟨?_, rfl⟩
  have h := congrArg List.length (kalmanFilter_proj data pn mn)
  simpa using h

/-- C10: the `i`-th output point of `kalmanFilter` carries the year of the
`i`-th input point and an `originalTemperature` equal to the `i`-th input's
raw temperature: the filter never reorders points and only the smoothed
`temperature` field is new. -/
theorem kalmanFilter_frame (data : List Pt) (pn mn : ℚ) (i : ℕ) :
    Option.map OutPt.year ((kalmanFilter data pn mn)[i]?)
      = Option.map Pt.year (data[i]?) ∧
    Option.map OutPt.originalTemperature ((kalmanFilter data pn mn)[i]?)
      = Option.map Pt.temperature (data[i]?) := by
  have h := congrArg (fun l => l[i]?) (kalmanFilter_proj data pn mn)
  simp only [List.getElem?_map] at h
  cases hq : (kalmanFilter data pn mn)[i]? with
  | none =>
    cases hd : data[i]? with
    | none => exact ⟨rfl, rfl⟩
    | some p => rw [hq, hd] at h; simp at h
  | some q =>
    cases hd : data[i]? with
    | none => rw [hq, hd] at h; simp at h
    | some p =>
      rw [hq, hd] at h
      simp only [Option.map_some', Option.some.injEq, Prod.mk.injEq] at h
      simp [h.1, h.2]

lemma kalmanAux_const (pn mn v : ℚ) (l : List Pt) : ∀ err : ℚ,
    (∀ p ∈ l, p.temperature = v) →
    ∀ q ∈ (kalmanAux pn mn v err l).1, q.temperature = v := by
  induction l with
  | nil => intro err _ q hq; simp [kalmanAux] at hq
  | cons p rest ih =>
    intro err hl q hq
    have hp : p.temperature = v := hl p (List.mem_cons_self p rest)
    simp only [kalmanAux, hp, sub_self, mul_zero, add_zero, List.mem_cons] at hq
    rcases hq with hq | hq
    · rw [hq]
    · exact ih ((1 - (err + pn) / (err + pn + mn)) * (err + pn))
        (fun p' hp' => hl p' (List.mem_cons_of_mem p hp')) q hq

lemma kalmanFilter_head (pn mn : ℚ) (p0 : Pt) (rest : List Pt) :
    Option.map OutPt.temperature (kalmanFilter (p0 :: rest) pn mn).head?
      = some p0.temperature := by
  simp [kalmanFilter, kalmanAux]

/-- C7: on a constant input sequence (all temperatures equal to `v`), every
output point of `kalmanFilter` has smoothed temperature exactly `v`, for
any parameters; and on any non-empty input the first output's smoothed
value equals the first raw value exactly. -/
theorem kalmanFilter_const_fixed (pn mn v : ℚ) (data : List Pt)
    (hv : ∀ p ∈ data, p.temperature = v)
    (data' : List Pt) (p0 : Pt) (rest : List Pt) (h0 : data' = p0 :: rest) :
    (∀ q ∈ kalmanFilter data pn mn, q.temperature = v) ∧
    Option.map OutPt.temperature (kalmanFilter data' pn mn).head?
      = some p0.temperature := by
  constructor
  · cases data with
    | nil => intro q hq; simp [kalmanFilter] at hq
    | cons p r =>
      intro q hq
      have hp : p.temperature = v := hv p (List.mem_cons_self p r)
      have hrw : kalmanFilter (p :: r) pn mn = (kalmanAux pn mn v 1 (p :: r)).1 := by
        rw [kalmanFilter, hp]
      rw [hrw] at hq
      exact kalmanAux_const pn mn v (p :: r) 1 hv q hq
  · rw [h0]
    exact kalmanFilter_head pn mn p0 rest

/-- Witness for C7 at a concrete constant input and a concrete non-empty
input. -/
theorem kalmanFilter_const_fixed_witness :
    (∀ p ∈ [(⟨2000, 7⟩ : Pt)], p.temperature = 7) ∧
    ([(⟨1999, 3⟩ : Pt)] = (⟨1999, 3⟩ : Pt) :: []) ∧
    ((∀ q ∈ kalmanFilter [⟨2000, 7⟩] 1 1, q.temperature = 7) ∧
      Option.map OutPt.temperature (kalmanFilter [⟨1999, 3⟩] 1 1).head?
        = some (3 : ℚ)) :=
  ⟨by decide, rfl,
    kalmanFilter_const_fixed 1 1 7 [⟨2000, 7⟩] (by decide)
      [⟨1999, 3⟩] ⟨1999, 3⟩ [] rfl⟩

lemma getKey_setKey_self {α β : Type} [DecidableEq α]
    (xs : List (α × β)) (k : α) (v : β) : getKey (setKey xs k v) k = some v := by
  induction xs with
  | nil => simp [setKey, getKey]
  | cons x rest ih =>
    by_cases h : x.1 = k
    · simp [setKey, h, getKey]
    · simp [setKey, h, getKey, ih]

lemma getKey_setKey_ne {α β : Type} [DecidableEq α]
    (xs : List (α × β)) (k k' : α) (v : β) (h : k' ≠ k) :
    getKey (setKey xs k v) k' = getKey xs k' := by
  have hk : ¬(k = k') := fun he => h he.symm
  induction xs with
  | nil => simp [setKey, getKey, hk]
  | cons x rest ih =>
    obtain ⟨xk, xv⟩ := x
    by_cases hx : xk = k
    · subst hx
      simp [setKey, getKey, hk]
    · simp only [setKey, hx, if_false, getKey]
      by_cases hx' : xk = k'
      · simp [hx']
      · simp [hx', ih]

lemma lookup_ingest (csvData : Index) (d : Row) (y : Option ℤ) (i : String) :
    lookupIdx (ingest csvData d) y i =
      if y = d.year ∧ i = d.iso_num then some (mkRecord d)
      else lookupIdx csvData y i := by
  by_cases hy : y = d.year
  · subst hy
    simp only [lookupIdx, ingest, getKey_setKey_self, Option.some_bind]
    by_cases hi : i = d.iso_num
    · subst hi
      simp [getKey_setKey_self]
    · simp only [hi, and_false, if_false]
      rw [getKey_setKey_ne _ _ _ _ hi]
      cases hg : getKey csvData d.year with
      | none => simp [hg, getKey]
      | some inner => simp [hg]
  · simp only [hy, false_and, if_false, lookupIdx, ingest]
    rw [getKey_setKey_ne _ _ _ _ hy]

lemma getLast?_cons_of_some {α : Type} {l : List α} {x a : α}
    (h : l.getLast? = some x) : (a :: l).getLast? = some x := by
  cases l with
  | nil => simp at h
  | cons b t => rw [List.getLast?_cons_cons]; exact h

lemma lookup_foldl_ingest (y : Option ℤ) (i : String) :
    ∀ (csv : List Row) (idx : Index),
    lookupIdx (csv.foldl ingest idx) y i =
      match (csv.filter fun d => decide (d.year = y ∧ d.iso_num = i)).getLast? with
      | some d => some (mkRecord d)
      | none => lookupIdx idx y i := by
  intro csv
  induction csv with
  | nil => intro idx; rfl
  | cons d rest ih =>
    intro idx
    rw [List.foldl_cons, ih (ingest idx d)]
    by_cases hd : d.year = y ∧ d.iso_num = i
    · rw [List.filter_cons_of_pos (by simpa using hd)]
      cases hlast :
          (rest.filter fun d => decide (d.year = y ∧ d.iso_num = i)).getLast? with
      | some d' => rw [getLast?_cons_of_some hlast]
      | none =>
        rw [List.getLast?_eq_none_iff] at hlast
        rw [hlast]
        simp only [List.getLast?_singleton]
        rw [lookup_ingest]
        simp [hd.1, hd.2]
    · rw [List.filter_cons_of_neg (by simpa using hd)]
      cases hlast :
          (rest.filter fun d => decide (d.year = y ∧ d.iso_num = i)).getLast? with
      | some d' => rfl
      | none =>
        rw [lookup_ingest]
        have : ¬(y = d.year ∧ i = d.iso_num) := fun h => hd ⟨h.1.symm, h.2.symm⟩
        simp [this]

lemma keys_setKey {α β : Type} [DecidableEq α] (xs : List (α × β)) (k : α) (v : β) :
    (setKey xs k v).map Prod.fst
      = if k ∈ xs.map Prod.fst then xs.map Prod.fst
        else xs.map Prod.fst ++ [k] := by
  induction xs with
  | nil => simp [setKey]
  | cons x rest ih =>
    obtain ⟨xk, xv⟩ := x
    by_cases hx : xk = k
    · subst hx; simp [setKey]
    · simp only [setKey, hx, if_false, List.map_cons]
      rw [ih]
      have hne : ¬(k = xk) := fun h => hx h.symm
      by_cases hc : k ∈ rest.map Prod.fst
      · simp [hc, hne]
      · simp [hc, hne]

lemma nodup_keys_setKey {α β : Type} [DecidableEq α] (xs : List (α × β))
    (k : α) (v : β) (h : (xs.map Prod.fst).Nodup) :
    ((setKey xs k v).map Prod.fst).Nodup := by
  rw [keys_setKey]
  by_cases hc : k ∈ xs.map Prod.fst
  · simpa [hc] using h
  · simp [hc, List.nodup_append, h]

lemma mem_setKey {α β : Type} [DecidableEq α] : ∀ {xs : List (α × β)} {k : α}
    {v : β} {a : α × β}, a ∈ setKey xs k v → a = (k, v) ∨ a ∈ xs := by
  intro xs
  induction xs with
  | nil => intro k v a h; simpa [setKey] using h
  | cons x rest ih =>
    intro k v a h
    obtain ⟨xk, xv⟩ := x
    by_cases hx : xk = k
    · simp only [setKey, hx, if_true] at h
      rcases List.mem_cons.mp h with h | h
      · exact Or.inl h
      · exact Or.inr (List.mem_cons_of_mem _ h)
    · simp only [setKey, hx, if_false] at h
      rcases List.mem_cons.mp h with h | h
      · exact Or.inr (h ▸ List.mem_cons_self _ _)
      · rcases ih h with h | h
        · exact Or.inl h
        · exact Or.inr (List.mem_cons_of_mem _ h)

lemma getKey_mem {α β : Type} [DecidableEq α] : ∀ {xs : List (α × β)} {k : α}
    {v : β}, getKey xs k = some v → (k, v) ∈ xs := by
  intro xs
  induction xs with
  | nil => intro k v h; simp [getKey] at h
  | cons x rest ih =>
    intro k v h
    obtain ⟨xk, xv⟩ := x
    by_cases hx : xk = k
    · simp only [getKey, hx, if_true, Option.some.injEq] at h
      exact hx ▸ h ▸ List.mem_cons_self _ _
    · simp only [getKey, hx, if_false] at h
      exact List.mem_cons_of_mem _ (ih h)

lemma innerNodup_ingest (idx : Index) (d : Row)
    (h : ∀ ym ∈ idx, ((ym.2).map Prod.fst).Nodup) :
    ∀ ym ∈ ingest idx d, ((ym.2).map Prod.fst).Nodup := by
  intro ym hym
  rcases mem_setKey hym with he | hm
  · rw [he]
    apply nodup_keys_setKey
    cases hg : getKey idx d.year with
    | none => simp [hg]
    | some inn =>
      simpa [hg] using h (d.year, inn) (getKey_mem hg)
  · exact h ym hm

lemma buildIndex_nodup_aux : ∀ (csv : List Row) (idx : Index),
    (idx.map Prod.fst).Nodup → (∀ ym ∈ idx, ((ym.2).map Prod.fst).Nodup) →
    ((csv.foldl ingest idx).map Prod.fst).Nodup ∧
      ∀ ym ∈ csv.foldl ingest idx, ((ym.2).map Prod.fst).Nodup := by
  intro csv
  induction csv with
  | nil => intro idx h1 h2; exact ⟨h1, h2⟩
  | cons d rest ih =>
    intro idx h1 h2
    exact ih (ingest idx d) (nodup_keys_setKey _ _ _ h1) (innerNodup_ingest idx d h2)

lemma lookup_buildIndex (csv : List Row) (y : Option ℤ) (i : String) :
    lookupIdx (buildIndex csv) y i
      = Option.map mkRecord
          ((csv.filter fun d => decide (d.year = y ∧ d.iso_num = i)).getLast?) := by
  rw [buildIndex, lookup_foldl_ingest]
  cases (csv.filter fun d => decide (d.year = y ∧ d.iso_num = i)).getLast? with
  | some d' => rfl
  | none => rfl

/-- C9: the built index maps each (year, isoCode) pair to at most one
record, the one made from the *last* input row parsing to that pair (later
rows overwrite earlier ones); moreover each year key occurs exactly once in
the object and each isoCode key exactly once in its year's object. -/
theorem buildIndex_last_wins (csv : List Row) (y : Option ℤ) (i : String) :
    lookupIdx (buildIndex csv) y i
      = Option.map mkRecord
          ((csv.filter fun d => decide (d.year = y ∧ d.iso_num = i)).getLast?) ∧
    ((buildIndex csv).map Prod.fst).Nodup ∧
    ∀ ym ∈ buildIndex csv, ((ym.2).map Prod.fst).Nodup := by
  refine ⟨lookup_buildIndex csv y i, ?_, ?_⟩
  · exact (buildIndex_nodup_aux csv [] (by simp) (by simp)).1
  · exact (buildIndex_nodup_aux csv [] (by simp) (by simp)).2

/-- Witness for C9: two rows with the same (year, isoCode); the lookup
returns the record of the second. -/
theorem buildIndex_last_wins_witness :
    lookupIdx (buildIndex [⟨some 1850, "004", "Afghanistan", some 14, none⟩,
        ⟨some 1850, "004", "Afghanistan", some 15, some 1⟩]) (some 1850) "004"
      = Option.map mkRecord
          (([(⟨some 1850, "004", "Afghanistan", some 14, none⟩ : Row),
              ⟨some 1850, "004", "Afghanistan", some 15, some 1⟩].filter
            fun d => decide (d.year = some 1850 ∧ d.iso_num = "004")).getLast?) ∧
    ((buildIndex [(⟨some 1850, "004", "Afghanistan", some 14, none⟩ : Row),
        ⟨some 1850, "004", "Afghanistan", some 15, some 1⟩]).map Prod.fst).Nodup ∧
    ∀ ym ∈ buildIndex [(⟨some 1850, "004", "Afghanistan", some 14, none⟩ : Row),
        ⟨some 1850, "004", "Afghanistan", some 15, some 1⟩],
      ((ym.2).map Prod.fst).Nodup :=
  buildIndex_last_wins _ (some 1850) "004"

/-- C3 counterexample: a row whose year is not parseable (`+d.year` is
`NaN`) is *not* skipped — `csv.forEach` stores it under the `"NaN"` key (the
`none` key of the model), so the build of a single bad row produces an
index with an entry for it. -/
theorem badYear_row_ingested_cex :
    lookupIdx (buildIndex [⟨none, "004", "Afghanistan", some 14, none⟩])
        none "004"
      = some (mkRecord ⟨none, "004", "Afghanistan", some 14, none⟩) ∧
    buildIndex [⟨none, "004", "Afghanistan", some 14, none⟩] ≠ [] := by
  exact ⟨rfl, by decide⟩

/-- C3 (amended): a row with an unparseable year is ingested under the
`NaN` year key rather than skipped, and it never aborts the load: lookups
of every well-formed year key are exactly what ingesting only the
well-formed rows would give. -/
theorem badYear_rows_not_skipped (csv : List Row) (d : Row) (hd : d ∈ csv)
    (hbad : d.year = none) (y : ℤ) (i : String) :
    (lookupIdx (buildIndex csv) none d.iso_num).isSome = true ∧
    lookupIdx (buildIndex csv) (some y) i
      = lookupIdx (buildIndex (csv.filter fun r => r.year.isSome))
          (some y) i := by
  constructor
  · rw [lookup_buildIndex]
    have hmem : d ∈ csv.filter
        (fun r => decide (r.year = none ∧ r.iso_num = d.iso_num)) :=
      List.mem_filter.mpr ⟨hd, by simp [hbad]⟩
    have hne := List.ne_nil_of_mem hmem
    simp only [Option.isSome_map']
    rw [List.getLast?_isSome]
    exact hne
  · rw [lookup_buildIndex, lookup_buildIndex]
    congr 2
    rw [List.filter_filter]
    apply List.filter_congr
    intro r _
    by_cases h : r.year = some y ∧ r.iso_num = i
    · simp [h, h.1]
    · simp [h]

/-- Witness for C3 (amended) at a concrete two-row input with one bad and
one good row. -/
theorem badYear_rows_not_skipped_witness :
    Row.mk none "004" "Afghanistan" (some 14) none ∈
      ([Row.mk none "004" "Afghanistan" (some 14) none,
        Row.mk (some 1850) "008" "Albania" (some 10) none] : List Row) ∧
    (Row.mk none "004" "Afghanistan" (some 14) none).year = none ∧
    ((lookupIdx (buildIndex [Row.mk none "004" "Afghanistan" (some 14) none,
        Row.mk (some 1850) "008" "Albania" (some 10) none]) none "004").isSome
          = true ∧
      lookupIdx (buildIndex [Row.mk none "004" "Afghanistan" (some 14) none,
          Row.mk (some 1850) "008" "Albania" (some 10) none]) (some 1850) "008"
        = lookupIdx (buildIndex
            ([Row.mk none "004" "Afghanistan" (some 14) none,
              Row.mk (some 1850) "008" "Albania" (some 10) none].filter
                fun r => r.year.isSome)) (some 1850) "008") :=
  ⟨by decide, rfl,
    badYear_rows_not_skipped
      [Row.mk none "004" "Afghanistan" (some 14) none,
        Row.mk (some 1850) "008" "Albania" (some 10) none]
      (Row.mk none "004" "Afghanistan" (some 14) none)
      (by decide) rfl 1850 "008"⟩

/-- C2 counterexample: with no non-null relative-change value in the
dataset there is *no* nominal fallback of 5 — `d3.max` of the empty
collection is `undefined` (`none`), and the diverging domain is the
degenerate `[-undefined, 0, undefined]` (`none`), not `[-5, 0, 5]`. -/
theorem noFallback_cex :
    maxPercentChange [Row.mk (some 2000) "004" "Afghanistan" (some 14) none]
      = none ∧
    changeDomain [Row.mk (some 2000) "004" "Afghanistan" (some 14) none]
      ≠ some (-5, 0, 5) :=
  ⟨rfl, by decide⟩

lemma mem_ingest_pc (idx : Index) (d : Row)
    (h : ∀ ym ∈ idx, ∀ ci ∈ ym.2, ci.2.percentChange = none)
    (hd : d.avg_temp_change = none) :
    ∀ ym ∈ ingest idx d, ∀ ci ∈ ym.2, ci.2.percentChange = none := by
  intro ym hym ci hci
  rcases mem_setKey hym with he | hm
  · subst he
    rcases mem_setKey hci with hce | hcm
    · rw [hce]
      exact hd
    · cases hg : getKey idx d.year with
      | none => rw [hg] at hcm; simp at hcm
      | some inn =>
        rw [hg] at hcm
        exact h (d.year, inn) (getKey_mem hg) ci (by simpa using hcm)
  · exact h ym hm ci hci

lemma foldl_ingest_pc : ∀ (csv : List Row) (idx : Index),
    (∀ ym ∈ idx, ∀ ci ∈ ym.2, ci.2.percentChange = none) →
    (∀ d ∈ csv, d.avg_temp_change = none) →
    ∀ ym ∈ csv.foldl ingest idx, ∀ ci ∈ ym.2, ci.2.percentChange = none := by
  intro csv
  induction csv with
  | nil => intro idx h _; exact h
  | cons d rest ih =>
    intro idx h hall
    exact ih (ingest idx d)
      (mem_ingest_pc idx d h (hall d (List.mem_cons_self d rest)))
      (fun d' hd' => hall d' (List.mem_cons_of_mem _ hd'))

lemma allPercentChanges_nil (idx : Index)
    (h : ∀ ym ∈ idx, ∀ ci ∈ ym.2, ci.2.percentChange = none) :
    allPercentChanges idx = [] := by
  rw [allPercentChanges, List.flatten_eq_nil_iff]
  intro l hl
  rcases List.mem_map.mp hl with ⟨ym, hym, rfl⟩
  rw [List.filterMap_eq_nil_iff]
  intro ci hci
  rw [h ym hym ci hci]
  rfl

/-- C2 (amended): when the dataset contains no non-null relative-change
value, no fallback is applied: `maxPercentChange` is `undefined` (`none`)
and the diverging scale's domain is degenerate (`none`), not the
well-formed triple `[-5, 0, 5]`. -/
theorem noRelative_domain_degenerate (csv : List Row)
    (h : ∀ d ∈ csv, d.avg_temp_change = none) :
    maxPercentChange csv = none ∧ changeDomain csv = none := by
  have hnil : allPercentChanges (buildIndex csv) = [] :=
    allPercentChanges_nil _ (foldl_ingest_pc csv [] (by simp) h)
  refine ⟨?_, ?_⟩
  · rw [maxPercentChange, hnil]; rfl
  · rw [changeDomain, maxPercentChange, hnil]; rfl

/-- Witness for C2 (amended) at a concrete one-row dataset with no
relative data. -/
theorem noRelative_domain_degenerate_witness :
    (∀ d ∈ ([Row.mk (some 2000) "004" "Afghanistan" (some 14) none] :
        List Row), d.avg_temp_change = none) ∧
    (maxPercentChange [Row.mk (some 2000) "004" "Afghanistan" (some 14) none]
        = none ∧
      changeDomain [Row.mk (some 2000) "004" "Afghanistan" (some 14) none]
        = none) :=
  ⟨by decide,
    noRelative_domain_degenerate
      [Row.mk (some 2000) "004" "Afghanistan" (some 14) none] (by decide)⟩

/-- C4: an out-of-bound persisted/requested year is clamped to the default
2014 by the hydration code (lines 41-47) and the clamped value — not the
out-of-bound input — is persisted back to storage. -/
theorem hydrateYear_clamps (y : ℤ) (h : y < 1850 ∨ 2014 < y) :
    hydrateYear (some y) = (2014, some 2014) ∧
    (hydrateYear (some y)).2 ≠ some y := by
  have h2014 : ¬((2014 : ℤ) = y) := by rcases h with h | h <;> omega
  have he : hydrateYear (some y) = (2014, some 2014) := by
    simp only [hydrateYear]
    rw [if_pos h]
  refine ⟨he, ?_⟩
  rw [he]
  simpa using h2014

/-- Witness for C4 at the spec's example year 1700. -/
theorem hydrateYear_clamps_witness :
    ((1700 : ℤ) < 1850 ∨ (2014 : ℤ) < 1700) ∧
    (hydrateYear (some 1700) = (2014, some 2014) ∧
      (hydrateYear (some 1700)).2 ≠ some 1700) :=
  ⟨by decide, hydrateYear_clamps 1700 (by decide)⟩

/-- C5 counterexample: the claim fails on a dataset with exactly one
distinct non-null value.  On `[14]` the domain is the degenerate
`[14, 14]`, and evaluating the scale at its domain minimum (= maximum)
applies the interpolator at the constant midpoint parameter `1/2` (d3's
`normalize` on a degenerate domain), not at the blue endpoint `1` or the
red endpoint `0` — so the endpoint property is *not* independent of
dataset size. -/
theorem absolute_scale_degenerate_cex :
    d3Min [(14 : ℚ)] = some 14 ∧ d3Max [(14 : ℚ)] = some 14 ∧
    colorScaleAbsolute (fun t => t) 14 14 14 = (1 / 2 : ℚ) ∧
    (1 / 2 : ℚ) ≠ 1 ∧ (1 / 2 : ℚ) ≠ 0 := by
  refine ⟨rfl, rfl, ?_, by norm_num, by norm_num⟩
  norm_num [colorScaleAbsolute, scaleSequential, interpolateBlYlRd,
    seqNormalize]

/-- C5 (amended): on a domain `[mn, mx]` with at least two distinct
non-null absolute values (`mn < mx`), the absolute sequential scale maps
the domain minimum to the blue endpoint of the `RdYlBu` ramp (parameter
`1`) and the domain maximum to its red endpoint (parameter `0`) — the
inversion `t ↦ 1 - t` of line 79 is what turns the naturally red-to-blue
ramp into cold-blue / hot-red; on a degenerate single-value domain the
scale is instead constant at the midpoint parameter `1/2`. -/
theorem absolute_scale_endpoints {Color : Type} (interpolateRdYlBu : ℚ → Color)
    (vals : List ℚ) (mn mx : ℚ) ( _hmn : d3Min vals = some mn)
    ( _hmx : d3Max vals = some mx) (hlt : mn < mx) :
    colorScaleAbsolute interpolateRdYlBu mn mx mn = interpolateRdYlBu 1 ∧
    colorScaleAbsolute interpolateRdYlBu mn mx mx = interpolateRdYlBu 0 ∧
    ∀ v x : ℚ, colorScaleAbsolute interpolateRdYlBu v v x
      = interpolateRdYlBu (1 / 2) := by
  have hne : mx - mn ≠ 0 := sub_ne_zero.mpr hlt.ne'
  refine ⟨?_, ?_, ?_⟩
  · simp only [colorScaleAbsolute, scaleSequential, interpolateBlYlRd,
      seqNormalize, if_neg hne]
    norm_num
  · simp only [colorScaleAbsolute, scaleSequential, interpolateBlYlRd,
      seqNormalize, if_neg hne]
    rw [div_self hne]
    norm_num
  · intro v x
    simp only [colorScaleAbsolute, scaleSequential, interpolateBlYlRd,
      seqNormalize, sub_self, if_pos rfl]
    norm_num

/-- Witness for C5 (amended) on the two-value dataset `[14, 15]`, with the
abstract ramp instantiated by the identity. -/
theorem absolute_scale_endpoints_witness :
    d3Min [(14 : ℚ), 15] = some 14 ∧ d3Max [(14 : ℚ), 15] = some 15 ∧
    (14 : ℚ) < 15 ∧
    (colorScaleAbsolute (fun t => t) 14 15 14 = (1 : ℚ) ∧
      colorScaleAbsolute (fun t => t) 14 15 15 = (0 : ℚ) ∧
      ∀ v x : ℚ, colorScaleAbsolute (fun t => t) v v x = (1 / 2 : ℚ)) :=
  ⟨by decide, by decide, by decide,
    absolute_scale_endpoints (fun t => t) [14, 15] 14 15 (by decide)
      (by decide) (by decide)⟩

/-- C6: on the symmetric domain `[-m, 0, m]`, the relative diverging scale
maps `0` to the neutral midpoint (ramp parameter `1/2`), and `-x` / `+x`
hit the ramp at `1/2 + x/(2m)` / `1/2 - x/(2m)` — parameters symmetric
about the midpoint, with the negative side blue-leaning (`> 1/2`) and the
positive side red-leaning (`< 1/2`) on the reversed `RdBu` ramp of
line 92. -/
theorem relative_scale_symmetry {Color : Type} (interpolateRdBu : ℚ → Color)
    (m x : ℚ) (hm : 0 < m) (hx0 : 0 ≤ x) ( _hxm : x ≤ m) :
    colorScaleChange interpolateRdBu m 0 = interpolateRdBu (1 / 2) ∧
    colorScaleChange interpolateRdBu m (-x)
      = interpolateRdBu (1 / 2 + x / (2 * m)) ∧
    colorScaleChange interpolateRdBu m x
      = interpolateRdBu (1 / 2 - x / (2 * m)) ∧
    (1 / 2 + x / (2 * m)) + (1 / 2 - x / (2 * m)) = (1 : ℚ) := by
  have hm0 : m ≠ 0 := hm.ne'
  refine ⟨?_, ?_, ?_, by ring⟩
  · simp only [colorScaleChange, scaleDiverging, interpolateBlRd, divergingT]
    norm_num
  · rcases lt_or_eq_of_le hx0 with hx | hx
    · simp only [colorScaleChange, scaleDiverging, interpolateBlRd, divergingT]
      rw [if_pos (by linarith : -x < 0)]
      congr 1
      field_simp
      ring
    · rw [← hx]
      simp only [colorScaleChange, scaleDiverging, interpolateBlRd, divergingT]
      norm_num
  · simp only [colorScaleChange, scaleDiverging, interpolateBlRd, divergingT]
    rw [if_neg (not_lt.mpr hx0)]
    congr 1
    field_simp
    ring

/-- Witness for C6 with `m = 2`, `x = 1`, the abstract ramp instantiated by
the identity. -/
theorem relative_scale_symmetry_witness :
    (0 : ℚ) < 2 ∧ (0 : ℚ) ≤ 1 ∧ (1 : ℚ) ≤ 2 ∧
    (colorScaleChange (fun t => t) 2 0 = (1 / 2 : ℚ) ∧
      colorScaleChange (fun t => t) 2 (-1) = (1 / 2 + 1 / (2 * 2) : ℚ) ∧
      colorScaleChange (fun t => t) 2 1 = (1 / 2 - 1 / (2 * 2) : ℚ) ∧
      ((1 / 2 + 1 / (2 * 2)) + (1 / 2 - 1 / (2 * 2)) : ℚ) = 1) :=
  ⟨by decide, by decide, by decide,
    relative_scale_symmetry (fun t => t) 2 1 (by decide) (by decide)
      (by decide)⟩

lemma kalmanAux_err (pn mn : ℚ) : ∀ (l : List Pt) (est err : ℚ),
    (kalmanAux pn mn est err l).2.2 = (errUpdate pn mn)^[l.length] err := by
  intro l
  induction l with
  | nil => intro est err; rfl
  | cons p rest ih =>
    intro est err
    simp only [kalmanAux]
    rw [ih]
    rw [List.length_cons, Function.iterate_succ_apply]
    rfl

lemma errAfter_iterate (pn mn : ℚ) (n : ℕ) :
    errAfter pn mn n = (errUpdate pn mn)^[n] 1 := by
  induction n with
  | zero => rfl
  | succ n ih =>
    rw [errAfter, ih, Function.iterate_succ_apply']

lemma kalmanErrState_eq (data : List Pt) (pn mn : ℚ) :
    kalmanErrState data pn mn = errAfter pn mn data.length := by
  cases data with
  | nil => rfl
  | cons p rest =>
    show (kalmanAux pn mn p.temperature 1 (p :: rest)).2.2 = _
    rw [kalmanAux_err, errAfter_iterate]

lemma errUpdate_cast (pn mn e : ℚ) :
    ((errUpdate pn mn e : ℚ) : ℝ) = errUpdateR (pn : ℝ) (mn : ℝ) (e : ℝ) := by
  simp only [errUpdate, errUpdateR]
  push_cast
  rfl

lemma errUpdateR_eq_div (pn mn e : ℝ) (h : e + pn + mn ≠ 0) :
    errUpdateR pn mn e = mn * (e + pn) / (e + pn + mn) := by
  simp only [errUpdateR]
  field_simp

lemma errUpdateR_sub (pn mn a b : ℝ) (ha : a + pn + mn ≠ 0)
    (hb : b + pn + mn ≠ 0) :
    errUpdateR pn mn a - errUpdateR pn mn b
      = mn ^ 2 * (a - b) / ((a + pn + mn) * (b + pn + mn)) := by
  rw [errUpdateR_eq_div _ _ _ ha, errUpdateR_eq_div _ _ _ hb]
  field_simp
  ring

/-- C1 counterexample: with parameters `processNoise = 1`,
`measurementNoise = 3` (both positive) the `errorEstimate` state of
`kalmanFilter` *increases* from one iteration to the next on a constant
two-point input (`6/5` after one point, `33/26` after two), and the spec's
claimed limit `mn·pn/(pn + mn) = 3/4` is not a fixed point of the error
update at all (`errUpdate 1 3 (3/4) = 21/19`). -/
theorem errorEstimate_claim_cex :
    kalmanErrState [⟨2000, 10⟩] 1 3
        < kalmanErrState [⟨2000, 10⟩, ⟨2001, 10⟩] 1 3 ∧
    errUpdate 1 3 (3 * 1 / (1 + 3)) ≠ 3 * 1 / (1 + 3) := by
  constructor
  · norm_num [kalmanErrState, kalmanAux]
  · norm_num [errUpdate]

/-- C1 (amended): for any `processNoise, measurementNoise > 0` the
`errorEstimate` state of `kalmanFilter` after `n` points is `errAfter n`,
and this sequence converges to the unique nonnegative root `e*` of
`e² + processNoise·e = measurementNoise·processNoise` — the true fixed
point of the error update — decreasing strictly at every step where it
exceeds `e*` (so monotonically whenever `e* < 1`, as with the code's
default parameters), but not for every parameter choice, and the limit is
`e*`, not `measurementNoise·processNoise/(processNoise+measurementNoise)`. -/
theorem errorEstimate_convergence (pn mn : ℚ) (hpn : 0 < pn) (hmn : 0 < mn) :
    ∃ eStar : ℝ, 0 ≤ eStar ∧
      eStar ^ 2 + (pn : ℝ) * eStar = (mn : ℝ) * (pn : ℝ) ∧
      (∀ e : ℝ, 0 ≤ e → e ^ 2 + (pn : ℝ) * e = (mn : ℝ) * (pn : ℝ) →
        e = eStar) ∧
      errUpdateR (pn : ℝ) (mn : ℝ) eStar = eStar ∧
      (∀ n : ℕ, eStar < ((errAfter pn mn n : ℚ) : ℝ) →
        errAfter pn mn (n + 1) < errAfter pn mn n) ∧
      (∀ data : List Pt,
        kalmanErrState data pn mn = errAfter pn mn data.length) ∧
      Filter.Tendsto (fun n : ℕ => ((errAfter pn mn n : ℚ) : ℝ))
        Filter.atTop (nhds eStar) := by
  have hp : (0 : ℝ) < (pn : ℝ) := by exact_mod_cast hpn
  have hm : (0 : ℝ) < (mn : ℝ) := by exact_mod_cast hmn
  have hD : (0 : ℝ) ≤ (pn : ℝ) ^ 2 + 4 * (mn : ℝ) * (pn : ℝ) := by positivity
  set s : ℝ := Real.sqrt ((pn : ℝ) ^ 2 + 4 * (mn : ℝ) * (pn : ℝ)) with hs
  have hs0 : 0 ≤ s := Real.sqrt_nonneg _
  have hs2 : s ^ 2 = (pn : ℝ) ^ 2 + 4 * (mn : ℝ) * (pn : ℝ) := Real.sq_sqrt hD
  have hsp : (pn : ℝ) ≤ s := by
    nlinarith [mul_pos hm hp, sq_nonneg (s + (pn : ℝ)), sq_nonneg (s - (pn : ℝ))]
  set eS : ℝ := (-(pn : ℝ) + s) / 2 with heS
  have he0 : 0 ≤ eS := by rw [heS]; linarith
  have heq : eS ^ 2 + (pn : ℝ) * eS = (mn : ℝ) * (pn : ℝ) := by
    rw [heS]; linear_combination hs2 / 4
  have hden : (0 : ℝ) < eS + (pn : ℝ) + (mn : ℝ) := by linarith
  have hfix : errUpdateR (pn : ℝ) (mn : ℝ) eS = eS := by
    rw [errUpdateR_eq_div _ _ _ hden.ne', div_eq_iff hden.ne']
    linear_combination -heq
  have hrec : ∀ n : ℕ, ((errAfter pn mn (n + 1) : ℚ) : ℝ)
      = errUpdateR (pn : ℝ) (mn : ℝ) ((errAfter pn mn n : ℚ) : ℝ) := by
    intro n
    rw [show errAfter pn mn (n + 1)
        = errUpdate pn mn (errAfter pn mn n) from rfl, errUpdate_cast]
  have hpos : ∀ n : ℕ, (0 : ℝ) < ((errAfter pn mn n : ℚ) : ℝ) := by
    intro n
    induction n with
    | zero => norm_num [errAfter]
    | succ n ih =>
      rw [hrec n]
      have hd : (0 : ℝ) < ((errAfter pn mn n : ℚ) : ℝ) + (pn : ℝ) + (mn : ℝ) := by
        linarith
      rw [errUpdateR_eq_div _ _ _ hd.ne']
      exact div_pos (mul_pos hm (by linarith)) hd
  refine ⟨eS, he0, heq, ?_, hfix, ?_,
    fun data => kalmanErrState_eq data pn mn, ?_⟩
  · intro e he hroot
    by_contra hne
    rcases lt_or_gt_of_ne hne with hlt | hgt
    · have hx : (0 : ℝ) < eS + e + (pn : ℝ) := by linarith
      nlinarith [mul_pos (sub_pos.mpr hlt) hx]
    · have hx : (0 : ℝ) < e + eS + (pn : ℝ) := by linarith
      nlinarith [mul_pos (sub_pos.mpr hgt) hx]
  · intro n hgt
    have hapos := hpos n
    have hd : (0 : ℝ) < ((errAfter pn mn n : ℚ) : ℝ) + (pn : ℝ) + (mn : ℝ) := by
      linarith
    have hlt : ((errAfter pn mn (n + 1) : ℚ) : ℝ)
        < ((errAfter pn mn n : ℚ) : ℝ) := by
      rw [hrec n, errUpdateR_eq_div _ _ _ hd.ne', div_lt_iff₀ hd]
      have hx : (0 : ℝ) < ((errAfter pn mn n : ℚ) : ℝ) + eS + (pn : ℝ) := by
        linarith
      nlinarith [mul_pos (sub_pos.mpr hgt) hx]
    exact_mod_cast hlt
  · set q : ℝ := ((mn : ℝ) / ((mn : ℝ) + (pn : ℝ))) ^ 2 with hq
    have hq0 : 0 ≤ q := sq_nonneg _
    have hmp : (0 : ℝ) < (mn : ℝ) + (pn : ℝ) := by linarith
    have hq1 : q < 1 := by
      rw [hq]
      have h1 : (mn : ℝ) / ((mn : ℝ) + (pn : ℝ)) < 1 := by
        rw [div_lt_one hmp]; linarith
      have h2 : 0 ≤ (mn : ℝ) / ((mn : ℝ) + (pn : ℝ)) := by positivity
      nlinarith
    have hbound : ∀ n : ℕ,
        |((errAfter pn mn n : ℚ) : ℝ) - eS| ≤ q ^ n * |1 - eS| := by
      intro n
      induction n with
      | zero => norm_num [errAfter]
      | succ n ih =>
        have hapos := hpos n
        have hda : (0 : ℝ)
            < ((errAfter pn mn n : ℚ) : ℝ) + (pn : ℝ) + (mn : ℝ) := by linarith
        have hdiff : errUpdateR (pn : ℝ) (mn : ℝ)
              ((errAfter pn mn n : ℚ) : ℝ) - eS
            = (mn : ℝ) ^ 2 * (((errAfter pn mn n : ℚ) : ℝ) - eS)
              / ((((errAfter pn mn n : ℚ) : ℝ) + (pn : ℝ) + (mn : ℝ))
                  * (eS + (pn : ℝ) + (mn : ℝ))) := by
          conv_lhs => rw [← hfix]
          exact errUpdateR_sub _ _ _ _ hda.ne' hden.ne'
        rw [hrec n, hdiff, abs_div, abs_mul]
        rw [abs_of_nonneg (sq_nonneg ((mn : ℝ)))]
        rw [abs_of_pos (mul_pos hda hden)]
        have hmono : ((mn : ℝ) + (pn : ℝ)) * ((mn : ℝ) + (pn : ℝ))
            ≤ (((errAfter pn mn n : ℚ) : ℝ) + (pn : ℝ) + (mn : ℝ))
                * (eS + (pn : ℝ) + (mn : ℝ)) := by
          nlinarith [mul_nonneg hapos.le he0]
        have h1 : (mn : ℝ) ^ 2 * |((errAfter pn mn n : ℚ) : ℝ) - eS|
              / ((((errAfter pn mn n : ℚ) : ℝ) + (pn : ℝ) + (mn : ℝ))
                  * (eS + (pn : ℝ) + (mn : ℝ)))
            ≤ (mn : ℝ) ^ 2 * |((errAfter pn mn n : ℚ) : ℝ) - eS|
              / (((mn : ℝ) + (pn : ℝ)) * ((mn : ℝ) + (pn : ℝ))) := by
          gcongr
        have h2 : (mn : ℝ) ^ 2 * |((errAfter pn mn n : ℚ) : ℝ) - eS|
              / (((mn : ℝ) + (pn : ℝ)) * ((mn : ℝ) + (pn : ℝ)))
            = q * |((errAfter pn mn n : ℚ) : ℝ) - eS| := by
          rw [hq, div_pow, div_mul_eq_mul_div, pow_two ((mn : ℝ) + (pn : ℝ))]
        calc (mn : ℝ) ^ 2 * |((errAfter pn mn n : ℚ) : ℝ) - eS|
              / ((((errAfter pn mn n : ℚ) : ℝ) + (pn : ℝ) + (mn : ℝ))
                  * (eS + (pn : ℝ) + (mn : ℝ)))
            ≤ q * |((errAfter pn mn n : ℚ) : ℝ) - eS| := h2 ▸ h1
          _ ≤ q * (q ^ n * |1 - eS|) := mul_le_mul_of_nonneg_left ih hq0
          _ = q ^ (n + 1) * |1 - eS| := by ring
    rw [tendsto_iff_dist_tendsto_zero]
    have hg : Filter.Tendsto (fun n : ℕ => q ^ n * |1 - eS|)
        Filter.atTop (nhds 0) := by
      have h := (tendsto_pow_atTop_nhds_zero_of_lt_one hq0 hq1).mul_const
        |1 - eS|
      simpa using h
    refine squeeze_zero (fun n => dist_nonneg) (fun n => ?_) hg
    rw [Real.dist_eq]
    exact hbound n

/-- Witness for C1 (amended) at the concrete parameters
`processNoise = 1`, `measurementNoise = 3`. -/
theorem errorEstimate_convergence_witness :
    (0 : ℚ) < 1 ∧ (0 : ℚ) < 3 ∧
    (∃ eStar : ℝ, 0 ≤ eStar ∧
      eStar ^ 2 + ((1 : ℚ) : ℝ) * eStar = ((3 : ℚ) : ℝ) * ((1 : ℚ) : ℝ) ∧
      (∀ e : ℝ, 0 ≤ e →
        e ^ 2 + ((1 : ℚ) : ℝ) * e = ((3 : ℚ) : ℝ) * ((1 : ℚ) : ℝ) →
        e = eStar) ∧
      errUpdateR ((1 : ℚ) : ℝ) ((3 : ℚ) : ℝ) eStar = eStar ∧
      (∀ n : ℕ, eStar < ((errAfter 1 3 n : ℚ) : ℝ) →
        errAfter 1 3 (n + 1) < errAfter 1 3 n) ∧
      (∀ data : List Pt,
        kalmanErrState data 1 3 = errAfter 1 3 data.length) ∧
      Filter.Tendsto (fun n : ℕ => ((errAfter 1 3 n : ℚ) : ℝ))
        Filter.atTop (nhds eStar)) :=
  ⟨by norm_num, by norm_num,
    errorEstimate_convergence 1 3 (by norm_num) (by norm_num)⟩
